import Mathlib

/-!
Shallow embedding of the typesetter's line-layout pipeline
(`src/createParagraphs.ts`, `src/drawText.ts`, `src/index.ts`,
`src/pageNumbers.ts`, `src/textStyles.ts`).

Conventions of the embedding:
* JavaScript numbers are modelled by an arbitrary linear ordered ring `α`
  (the line breaker and the pagination engine only add, subtract, multiply
  and compare); the justification renderer, which divides the extra space
  over the word gaps, is modelled over `ℚ`.
* `font.widthOfTextAtSize(text, size)` is an abstract parameter
  `widthOf : String → α → α`.
* JS `s.split(' ')` / `arr.join(' ')` / `s.trim()` are modelled by
  `wordsOf` / `joinSp` / `trimStr` below, with the exact JS semantics
  (empty segments are kept by `split`, and `''.split(' ') = ['']`).
* The regular expressions of the source are modelled by explicit character
  scanners with the same matching semantics (greedy `\d+`, greedy `(.+)`
  which stops at the last `.` reachable without crossing a newline).
* Mutation of parallel arrays is modelled by state passing; the pagination
  loop of `drawTextLines` becomes a fold over the line list carrying an
  explicit state, and each placement of a line is recorded as an event
  holding the arguments the engine hands to `drawJustifiedLine`.
-/

/-- JS `s.split(' ')` on the underlying character list: split at every single
space, keeping empty segments (so `[] ↦ [[]]`, `"a  b" ↦ ["a","","b"]`). -/
def splitSpChars : List Char → List (List Char)
  | [] => [[]]
  | c :: cs =>
    match splitSpChars cs with
    | [] => [[]]
    | w :: ws => if c = ' ' then [] :: w :: ws else (c :: w) :: ws

/-- JS `s.split(' ')`. -/
def wordsOf (s : String) : List String :=
  (splitSpChars s.data).map String.mk

/-- JS `arr.join(' ')`. -/
def joinSp : List String → String
  | [] => ""
  | [w] => w
  | w :: ws => w ++ " " ++ joinSp ws

/-- JS `s.trim()`: strip leading and trailing whitespace. -/
def trimStr (s : String) : String :=
  String.mk (((s.data.dropWhile Char.isWhitespace).reverse.dropWhile
    Char.isWhitespace).reverse)

/-- JS `line.endsWith(':')`. -/
def endsColon (s : String) : Bool :=
  s.data.getLast? = some ':'

/-- Matcher for the anchored regex fragment `^CHAPTER \d+\. ` (used by
`getNewChapterIndices`, and as capture group 1 of `capitalizeChapterTitle`):
consume the literal `"CHAPTER "`, then a maximal nonempty digit run, then
`". "`.  Returns the consumed prefix and the remainder.  Backtracking cannot
produce any other split: a shorter digit run would put a digit where the
regex demands `'.'`. -/
def chapterHeadMatch (cs : List Char) : Option (List Char × List Char) :=
  if cs.take 8 = "CHAPTER ".data then
    let rest := cs.drop 8
    let ds := rest.takeWhile Char.isDigit
    if ds = [] then none
    else
      match rest.dropWhile Char.isDigit with
      | '.' :: ' ' :: rest2 =>
          some ("CHAPTER ".data ++ ds ++ ['.', ' '], rest2)
      | _ => none
  else none

/-- Model of `getNewChapterIndices` (src/createParagraphs.ts): collect the indices of
all lines matching `/^CHAPTER \d+\. /`. -/
def getNewChapterIndices (lines : List String) : List Nat :=
  (List.range lines.length).filter
    (fun i => (chapterHeadMatch (lines.getD i "").data).isSome)

/-- The greedy tail `(.+)\.` of the regex in `capitalizeChapterTitle`: find
the last `'.'` of the input that is reachable without crossing a newline
(`.` does not match `'\n'`), and split there.  `some (a, b)` means the input
is `a ++ '.' :: b`, with `a` newline-free and no later eligible dot. -/
def lastDotSplit : List Char → Option (List Char × List Char)
  | [] => none
  | c :: cs =>
    if c = '\n' then none
    else
      match lastDotSplit cs with
      | some (a, b) => some (c :: a, b)
      | none => if c = '.' then some ([], cs) else none

/-- Model of `capitalizeChapterTitle` (src/createParagraphs.ts): on a match of
`/^(CHAPTER \d+\. )(.+)\./` return group 1, the upper-cased group 2 and a
final `'.'`; otherwise return the paragraph unchanged.  Group 2 is greedy, so
it extends to the last eligible `'.'`; it must be nonempty. -/
def capitalizeChapterTitle (paragraph : String) : String :=
  match chapterHeadMatch paragraph.data with
  | some (g1, rest) =>
    match lastDotSplit rest with
    | some (title, _) =>
      if title = [] then paragraph
      else String.mk (g1 ++ title.map Char.toUpper ++ ['.'])
    | none => paragraph
  | none => paragraph

/-- Case-insensitive test `/^CHAPTER \d+\./i.test(line)` used on the trimmed
line inside `drawTextLines` to recognise chapter titles. -/
def chapterTitleTest (s : String) : Bool :=
  let cs := s.data
  if (cs.take 8).map Char.toUpper = "CHAPTER ".data then
    let rest := cs.drop 8
    decide (rest.takeWhile Char.isDigit ≠ []) &&
      ((rest.dropWhile Char.isDigit).head? = some '.')
  else false

/-- Result of `createLines`: the three parallel arrays
`{lines, isLastLine, isFirstLine}`. -/
structure WrapAcc where
  lines : List String
  isLastLine : List Bool
  isFirstLine : List Bool
deriving Repr, DecidableEq

/-- Return value of `addWordToLine`. -/
structure WordStep where
  acc : WrapAcc
  currentLine : String
  isFirstLineOfParagraph : Bool

/-- Model of `addWordToLine` (src/createParagraphs.ts): append the word to the current
line if the widened line still fits, otherwise flush the current line as a
non-final line and restart the buffer with the word. -/
def addWordToLine {α : Type} [LinearOrderedRing α] (word currentLine : String)
    (acc : WrapAcc) (isFirstLineOfParagraph : Bool) (maxWidth : α)
    (widthOf : String → α → α) (fontSize : α) : WordStep :=
  let potentialLine :=
    if currentLine = "" then currentLine ++ word
    else currentLine ++ " " ++ word
  if widthOf potentialLine fontSize ≤ maxWidth then
    ⟨acc, potentialLine, isFirstLineOfParagraph⟩
  else
    ⟨⟨acc.lines ++ [trimStr currentLine], acc.isLastLine ++ [false],
      acc.isFirstLine ++ [isFirstLineOfParagraph]⟩, word, false⟩

/-- Model of `processLastLine` (src/createParagraphs.ts): flush the final buffer of a
paragraph as a last line. -/
def processLastLine (currentLine : String) (acc : WrapAcc)
    (isFirstLineOfParagraph : Bool) : WrapAcc :=
  ⟨acc.lines ++ [trimStr currentLine], acc.isLastLine ++ [true],
    acc.isFirstLine ++ [isFirstLineOfParagraph]⟩

/-- The word loop inside `createLines`: process each word of the paragraph,
threading the accumulator, the line buffer and the first-line flag.  The
usable width is `textMaxWidth - globalStyles.parIndentWidth` (= 18,
src/textStyles.ts) while still on a paragraph's first line. -/
def wrapWords {α : Type} [LinearOrderedRing α] (widthOf : String → α → α)
    (fontSize textMaxWidth : α) :
    List String → WrapAcc → String → Bool → WrapAcc × String × Bool
  | [], acc, currentLine, isFirstLineOfParagraph =>
      (acc, currentLine, isFirstLineOfParagraph)
  | w :: ws, acc, currentLine, isFirstLineOfParagraph =>
      let maxWidth :=
        if isFirstLineOfParagraph = true then textMaxWidth - 18
        else textMaxWidth
      let r := addWordToLine w currentLine acc isFirstLineOfParagraph maxWidth
        widthOf fontSize
      wrapWords widthOf fontSize textMaxWidth ws r.acc r.currentLine
        r.isFirstLineOfParagraph

/-- One iteration of the paragraph loop of `createLines`: wrap the words,
then flush the remaining buffer if its trimmed text is nonempty. -/
def wrapParagraph {α : Type} [LinearOrderedRing α] (widthOf : String → α → α)
    (fontSize textMaxWidth : α) (wordArray : List String) (acc : WrapAcc) :
    WrapAcc :=
  match wrapWords widthOf fontSize textMaxWidth wordArray acc "" true with
  | (acc2, currentLine, isFirstLineOfParagraph) =>
    if 0 < (trimStr currentLine).data.length then
      processLastLine currentLine acc2 isFirstLineOfParagraph
    else acc2

/-- The loop body of `handleOrphans`, iterating `i = 1, …` with the given
fuel (`lines.length - 1` iterations; the loop never changes the length).
A line flagged last-of-paragraph holding exactly one `split(' ')` token has
the previous line's last token popped and prepended (JS skips the move when
the popped token is the empty string, which is falsy). -/
def handleOrphansGo (isLastLine : List Bool) :
    Nat → Nat → List String → List String
  | 0, _, lines => lines
  | fuel + 1, i, lines =>
    let lines2 :=
      if isLastLine.getD i false = true ∧ (wordsOf (lines.getD i "")).length = 1
      then
        let previousLineWords := wordsOf (lines.getD (i - 1) "")
        match previousLineWords.getLast? with
        | some lastWord =>
          if lastWord = "" then lines
          else
            (lines.set (i - 1) (joinSp previousLineWords.dropLast)).set i
              (lastWord ++ " " ++ lines.getD i "")
        | none => lines
      else lines
    handleOrphansGo isLastLine fuel (i + 1) lines2

/-- Model of `handleOrphans` (src/createParagraphs.ts). -/
def handleOrphans (lines : List String) (isLastLine : List Bool) :
    List String :=
  if lines.length < 2 then lines
  else handleOrphansGo isLastLine (lines.length - 1) 1 lines

/-- Model of `createLines` (src/createParagraphs.ts): wrap every paragraph's word
array in order, then run orphan handling over the full line list. -/
def createLines {α : Type} [LinearOrderedRing α]
    (paragraphsAsWordArrays : List (List String))
    (widthOf : String → α → α) (fontSize textMaxWidth : α) : WrapAcc :=
  let acc := paragraphsAsWordArrays.foldl
    (fun a wa => wrapParagraph widthOf fontSize textMaxWidth wa a)
    ⟨[], [], []⟩
  { acc with lines := handleOrphans acc.lines acc.isLastLine }

/-- One `page.drawText(text, {x, y, size, ...})` call of the justification
renderer. -/
structure TextDraw where
  text : String
  x : ℚ
  y : ℚ
  size : ℚ
deriving Repr, DecidableEq

/-- The word loop of `drawJustifiedLine`: draw each word at the running
x-position, then advance by the word's width plus the natural space width
plus the per-gap additional width. -/
def justifyWords (widthOf : String → ℚ → ℚ)
    (currentFontSize spaceWidth additionalSpaceWidth yPos : ℚ) :
    List String → ℚ → List TextDraw
  | [], _ => []
  | w :: ws, currentXPos =>
    ⟨w, currentXPos, yPos, currentFontSize⟩ ::
      justifyWords widthOf currentFontSize spaceWidth additionalSpaceWidth yPos
        ws (currentXPos + widthOf w currentFontSize + spaceWidth +
          additionalSpaceWidth)

/-- Model of `drawJustifiedLine` (src/drawText.ts): a paragraph's last line is drawn
as one left-aligned run; any other line is justified by distributing the
extra space evenly over the word gaps.  The first line of a paragraph that
is not a chapter title is indented by the hard-coded 18 units and loses the
same amount of available width.  The words of a chapter title are measured
and drawn at the chapter-title font size, while the line width and the
space width are always measured at the body font size. -/
def drawJustifiedLine (line : String) (margin yPos fontSize
    chapterTitleFontSize : ℚ) (widthOf : String → ℚ → ℚ) (textMaxWidth : ℚ)
    (isLastLine isFirstLineOfParagraph isChapterTitle : Bool) :
    List TextDraw :=
  let words := wordsOf line
  let lineWidth := widthOf line fontSize
  let indentationWidth : ℚ := 18
  let xPos :=
    if isFirstLineOfParagraph = true ∧ isChapterTitle = false then
      margin + indentationWidth
    else margin
  let currentFontSize :=
    if isChapterTitle = true then chapterTitleFontSize else fontSize
  if isLastLine = true then
    [⟨line, xPos, yPos, currentFontSize⟩]
  else
    let availableWidth :=
      if isFirstLineOfParagraph = true ∧ isChapterTitle = false then
        textMaxWidth - indentationWidth
      else textMaxWidth
    let extraSpace := availableWidth - lineWidth
    let numSpaces : Nat := words.length - 1
    let spaceWidth := widthOf " " fontSize
    let additionalSpaceWidth :=
      if 0 < numSpaces then extraSpace / (numSpaces : ℚ) else 0
    justifyWords widthOf currentFontSize spaceWidth additionalSpaceWidth yPos
      words xPos

/-- The parameters of one `drawTextLines` run (src/drawText.ts), including
the inputs computed by the caller (src/index.ts).  The engine's vertical
bookkeeping never measures text widths, so the abstract width function does
not appear here. -/
structure DrawParams (α : Type) where
  margin : α
  pageHeight : α
  lineHeight : α
  paragraphBreakHeight : α
  lines : List String
  newChapterIndices : List Nat
  isLastLine : List Bool
  isFirstLine : List Bool

/-- One line placed by the pagination engine: on which page (0 is the page
handed in by the caller), at which stream index, at which baseline, and with
which arguments the engine invokes `drawJustifiedLine` for it. -/
structure PlacedLine (α : Type) where
  page : Nat
  lineIndex : Nat
  y : α
  text : String
  isLastLineOfParagraph : Bool
  isFirstLineOfParagraph : Bool
  isChapterTitle : Bool
deriving Repr, DecidableEq

/-- The mutable state of `drawTextLines`. -/
structure DState (α : Type) where
  page : Nat
  yPos : α
  remainingSpace : α
  colonEncountered : Bool
  afterColonLineIndex : Int
  lastLineOfParagraph : Int
  remainingLinesInParagraph : Int
  events : List (PlacedLine α)
deriving Repr, DecidableEq

/-- Model of `startNewPage` (src/drawText.ts): add a page, reset the cursor to the
top and the remaining space to the full text column height. -/
def startNewPage {α : Type} [LinearOrderedRing α] (p : DrawParams α)
    (s : DState α) : DState α :=
  { s with
    page := s.page + 1
    yPos := p.pageHeight - p.margin
    remainingSpace := (p.pageHeight - p.margin) - p.margin }

/-- Model of `calculateRemainingLinesInParagraph` (src/drawText.ts): scan forward
from `startIndex` for the first line flagged last-of-paragraph and return
the inclusive count; 0 when no such line exists. -/
def calculateRemainingLinesInParagraph {α : Type} (p : DrawParams α)
    (startIndex : Nat) : Int :=
  match (List.range' startIndex (p.lines.length - startIndex)).find?
      (fun j => p.isLastLine.getD j false) with
  | some j => (j : Int) - (startIndex : Int) + 1
  | none => 0

/-- The page-break decisions taken before a line is placed, in source order:
chapter break, paragraph lookahead, orphan-avoidance-at-top, widow
avoidance, minimum space.  (`lineIndex` in the source always equals the
`forEach` index `i`.) -/
def breakPhase {α : Type} [LinearOrderedRing α] (p : DrawParams α) (i : Nat)
    (line : String) (s : DState α) : DState α :=
  let isChapterTitle :=
    p.newChapterIndices.contains i && chapterTitleTest (trimStr line)
  let isFirstLineOfParagraph := p.isFirstLine.getD i false
  let s :=
    if isChapterTitle = true ∨ p.newChapterIndices.contains i = true then
      startNewPage p s
    else s
  let s :=
    if isFirstLineOfParagraph = true then
      { s with remainingLinesInParagraph :=
          calculateRemainingLinesInParagraph p i }
    else s
  let s :=
    if s.remainingLinesInParagraph ≤ 3 ∧
        s.remainingSpace < (s.remainingLinesInParagraph : α) * p.lineHeight
    then startNewPage p s
    else s
  let s :=
    if isFirstLineOfParagraph = true ∧ s.remainingSpace < 3 * p.lineHeight ∧
        3 < s.remainingLinesInParagraph
    then startNewPage p s
    else s
  if s.remainingSpace < p.lineHeight then startNewPage p s else s

/-- The placement part of one `drawTextLines` iteration: the empty-line
branch consumes the paragraph-break height (plus one line height when a
colon block is pending and a paragraph has closed); the draw branch renders
the line, advances the cursor, and applies the colon, colon-close and
chapter-title spacing rules in source order. -/
def placePhase {α : Type} [LinearOrderedRing α] (p : DrawParams α) (i : Nat)
    (line : String) (s : DState α) : DState α :=
  let isChapterTitle :=
    p.newChapterIndices.contains i && chapterTitleTest (trimStr line)
  let isFirstLineOfParagraph := p.isFirstLine.getD i false
  let isLastLineOfParagraph := p.isLastLine.getD i false
  if line = "" then
    let s := { s with
      yPos := s.yPos - p.paragraphBreakHeight
      remainingSpace := s.remainingSpace - p.paragraphBreakHeight }
    if s.colonEncountered = true ∧ 0 ≤ s.lastLineOfParagraph then
      { s with
        yPos := s.yPos - p.lineHeight
        remainingSpace := s.remainingSpace - p.lineHeight
        colonEncountered := false
        afterColonLineIndex := -1
        lastLineOfParagraph := -1 }
    else s
  else
    let ev : PlacedLine α :=
      ⟨s.page, i, s.yPos, line, isLastLineOfParagraph, isFirstLineOfParagraph,
        isChapterTitle⟩
    let s := { s with
      events := s.events ++ [ev]
      yPos := s.yPos - p.lineHeight
      remainingSpace := s.remainingSpace - p.lineHeight
      remainingLinesInParagraph := s.remainingLinesInParagraph - 1 }
    let s :=
      if endsColon line = true then
        { s with
          yPos := s.yPos - p.lineHeight
          remainingSpace := s.remainingSpace - p.lineHeight
          colonEncountered := true
          afterColonLineIndex := (i : Int) }
      else s
    let s :=
      if isLastLineOfParagraph = true then
        { s with lastLineOfParagraph := (i : Int) }
      else s
    let s :=
      if s.colonEncountered = true ∧
          s.afterColonLineIndex < s.lastLineOfParagraph then
        { s with
          yPos := s.yPos - p.lineHeight
          remainingSpace := s.remainingSpace - p.lineHeight
          colonEncountered := false
          afterColonLineIndex := -1
          lastLineOfParagraph := -1 }
      else s
    if isChapterTitle = true then
      { s with
        yPos := s.yPos - p.lineHeight
        remainingSpace := s.remainingSpace - p.lineHeight }
    else s

/-- One full iteration of the `lines.forEach` body of `drawTextLines`. -/
def drawStep {α : Type} [LinearOrderedRing α] (p : DrawParams α) (i : Nat)
    (line : String) (s : DState α) : DState α :=
  placePhase p i line (breakPhase p i line s)

/-- The `forEach` loop of `drawTextLines`, iterating indices `i, i+1, …`
with explicit fuel (`drawTextLinesRun` supplies `p.lines.length`). -/
def drawLinesGo {α : Type} [LinearOrderedRing α] (p : DrawParams α) :
    Nat → Nat → DState α → DState α
  | 0, _, s => s
  | fuel + 1, i, s =>
    drawLinesGo p fuel (i + 1) (drawStep p i (p.lines.getD i "") s)

/-- The initial state of `drawTextLines`: the caller's page (index 0),
cursor at `pageHeight - margin`, remaining space `yPos - margin`. -/
def initDState {α : Type} [LinearOrderedRing α] (p : DrawParams α) :
    DState α :=
  ⟨0, p.pageHeight - p.margin, (p.pageHeight - p.margin) - p.margin,
    false, -1, -1, 0, []⟩

/-- Model of `drawTextLines` (src/drawText.ts) as a state machine run. -/
def drawTextLinesRun {α : Type} [LinearOrderedRing α] (p : DrawParams α) :
    DState α :=
  drawLinesGo p p.lines.length 0 (initDState p)

/-- Model of `addPageNumbers` (src/pageNumbers.ts): the overlay stamps page `i`
(0-based position in the finished document) with the number `i + 1`; this
models the sequence of stamped numbers. -/
def addPageNumbersStamps (numPages : Nat) : List Nat :=
  (List.range numPages).map (fun i => i + 1)

/-- A concrete width function for concrete runs of the line breaker: the
width of a string is its length, independent of the font size. -/
def widthLenZ : String → ℤ → ℤ := fun s _ => (s.length : ℤ)

/-- A concrete width function for concrete runs of the justification
renderer: character count times font size.  At every fixed size it is
additive: the width of a space-joined line is the sum of the word widths
plus one space width per gap. -/
def widthByLenSize : String → ℚ → ℚ := fun s size => (s.length : ℚ) * size

/-- Modelled from the spec's words (§4.1/§6): the exact chapter-heading
pattern `^CHAPTER <digits>\. <title>\.$` with the trailing period at the
very end of the string and a nonempty title.  Used only to compare the
claim's anchored reading against the source's unanchored regex. -/
def specChapterHeadingExact (s : String) : Bool :=
  match chapterHeadMatch s.data with
  | some (_, rest) => decide (2 ≤ rest.length) && (rest.getLast? = some '.')
  | none => false

/-- Invariant of the pagination loop: every recorded event lies on an
already-created page. -/
def pagesBounded {α : Type} (s : DState α) : Prop :=
  ∀ e ∈ s.events, e.page ≤ s.page

theorem takeWhile_append_stop (p : Char → Bool) (xs : List Char) (y : Char)
    (ys : List Char) (hx : ∀ x ∈ xs, p x = true) (hy : p y = false) :
    (xs ++ y :: ys).takeWhile p = xs := by
  induction xs with
  | nil => simp [List.takeWhile, hy]
  | cons a l ih =>
    have ha : p a = true := hx a (by simp)
    simp [List.takeWhile, ha]
    exact ih (fun x hm => hx x (by simp [hm]))

theorem dropWhile_append_stop (p : Char → Bool) (xs : List Char) (y : Char)
    (ys : List Char) (hx : ∀ x ∈ xs, p x = true) (hy : p y = false) :
    (xs ++ y :: ys).dropWhile p = y :: ys := by
  induction xs with
  | nil => simp [List.dropWhile, hy]
  | cons a l ih =>
    have ha : p a = true := hx a (by simp)
    simp [List.dropWhile, ha]
    exact ih (fun x hm => hx x (by simp [hm]))

theorem chapterHeadMatch_decomp (ds rest : List Char) (h1 : ds ≠ [])
    (h2 : ∀ c ∈ ds, c.isDigit = true) :
    chapterHeadMatch ("CHAPTER ".data ++ ds ++ '.' :: ' ' :: rest) =
      some ("CHAPTER ".data ++ ds ++ ['.', ' '], rest) := by
  have hlen : ("CHAPTER ".data).length = 8 := by decide
  unfold chapterHeadMatch
  rw [show ("CHAPTER ".data ++ ds ++ '.' :: ' ' :: rest).take 8
      = "CHAPTER ".data from by
    rw [← hlen]
    exact List.take_left _ _]
  rw [if_pos rfl]
  rw [show ("CHAPTER ".data ++ ds ++ '.' :: ' ' :: rest).drop 8
      = ds ++ '.' :: ' ' :: rest from by
    rw [← hlen]
    exact List.drop_left _ _]
  dsimp only
  rw [takeWhile_append_stop _ _ _ _ h2 (by decide),
    dropWhile_append_stop _ _ _ _ h2 (by decide)]
  rw [if_neg h1]
  rfl

theorem chapterHeadMatch_isSome_iff (cs : List Char) :
    (chapterHeadMatch cs).isSome = true ↔
      ∃ ds rest, ds ≠ [] ∧ (∀ c ∈ ds, c.isDigit = true) ∧
        cs = "CHAPTER ".data ++ ds ++ '.' :: ' ' :: rest := by
  constructor
  · intro h
    unfold chapterHeadMatch at h
    by_cases h8 : cs.take 8 = "CHAPTER ".data
    · rw [if_pos h8] at h
      dsimp only at h
      set ds := (cs.drop 8).takeWhile Char.isDigit with hds
      by_cases hd : ds = []
      · rw [if_pos hd] at h
        simp at h
      · rw [if_neg hd] at h
        refine ⟨ds, ?_⟩
        rcases hdw : (cs.drop 8).dropWhile Char.isDigit with _ | ⟨c1, rest1⟩
        · rw [hdw] at h
          simp at h
        · rw [hdw] at h
          split at h
          next rest2 heq =>
            refine ⟨rest2, hd, fun c hc => List.mem_takeWhile_imp hc, ?_⟩
            have hsplit : ds ++ '.' :: ' ' :: rest2 = cs.drop 8 := by
              rw [hds, ← heq, ← hdw]
              exact List.takeWhile_append_dropWhile _ _
            calc cs = cs.take 8 ++ cs.drop 8 := (List.take_append_drop 8 cs).symm
              _ = "CHAPTER ".data ++ ds ++ '.' :: ' ' :: rest2 := by
                  rw [h8, ← hsplit, List.append_assoc]
          next => simp at h
    · rw [if_neg h8] at h
      simp at h
  · rintro ⟨ds, rest, h1, h2, rfl⟩
    rw [chapterHeadMatch_decomp ds rest h1 h2]
    rfl

theorem lastDotSplit_none (u : List Char) (h : '.' ∉ u) :
    lastDotSplit u = none := by
  induction u with
  | nil => rfl
  | cons c cs ih =>
    unfold lastDotSplit
    by_cases hc : c = '\n'
    · rw [if_pos hc]
    · rw [if_neg hc]
      rw [ih (fun hm => h (by simp [hm]))]
      have : ¬(c = '.') := fun hcc => h (by simp [hcc])
      simp [this]

theorem lastDotSplit_append (t u : List Char) (h4 : ∀ c ∈ t, c ≠ '\n')
    (hu : lastDotSplit u = none) :
    lastDotSplit (t ++ '.' :: u) = some (t, u) := by
  induction t with
  | nil =>
    rw [List.nil_append]
    unfold lastDotSplit
    rw [if_neg (show ¬('.' = '\n') from by decide), hu]
    rw [if_pos rfl]
  | cons c t2 ih =>
    rw [List.cons_append]
    unfold lastDotSplit
    rw [if_neg (h4 c (by simp)), ih (fun x hx => h4 x (by simp [hx]))]

/-- Claim C5 (counterexample): `capitalizeChapterTitle` is not guarded by a
whole-string match.  On `"CHAPTER 1. intro. more"` — which does not end in a
period, so by the claim it should be returned unchanged — the function
matches up to the last period, upper-cases `"intro"`, and drops the trailing
`" more"` altogether. -/
theorem c5_capitalize_cex :
    capitalizeChapterTitle "CHAPTER 1. intro. more" = "CHAPTER 1. INTRO." ∧
      specChapterHeadingExact "CHAPTER 1. intro. more" = false ∧
      capitalizeChapterTitle "CHAPTER 1. intro. more" ≠
        "CHAPTER 1. intro. more" := by decide

/-- Claim C5 (amended): whenever the paragraph decomposes as
`"CHAPTER " ++ digits ++ ". " ++ title ++ "." ++ junk` with nonempty digit
run, nonempty newline-free title and dot-free junk, `capitalizeChapterTitle`
rewrites it to `"CHAPTER " ++ digits ++ ". " ++ uppercased title ++ "."`,
discarding everything after that last period — the regex is neither anchored
at the end of the string nor does it preserve trailing text. -/
theorem c5_capitalize_amended (ds t u : List Char) (h1 : ds ≠ [])
    (h2 : ∀ c ∈ ds, c.isDigit = true) (h3 : t ≠ [])
    (h4 : ∀ c ∈ t, c ≠ '\n') (h5 : '.' ∉ u) :
    capitalizeChapterTitle
        (String.mk ("CHAPTER ".data ++ ds ++ '.' :: ' ' :: (t ++ '.' :: u)))
      = String.mk ("CHAPTER ".data ++ ds ++ '.' :: ' ' ::
          (t.map Char.toUpper ++ ['.'])) := by
  unfold capitalizeChapterTitle
  rw [show (String.mk ("CHAPTER ".data ++ ds ++ '.' :: ' ' ::
      (t ++ '.' :: u))).data
    = "CHAPTER ".data ++ ds ++ '.' :: ' ' :: (t ++ '.' :: u) from rfl]
  rw [chapterHeadMatch_decomp ds (t ++ '.' :: u) h1 h2]
  dsimp only
  rw [lastDotSplit_append t u h4 (lastDotSplit_none u h5)]
  dsimp only
  rw [if_neg h3]
  congr 1
  simp

/-- Witness for C5's amended theorem at a concrete heading. -/
theorem c5_capitalize_amended_witness :
    capitalizeChapterTitle "CHAPTER 2. intro." = "CHAPTER 2. INTRO." := by
  have h := c5_capitalize_amended "2".data "intro".data [] (by decide)
    (by decide) (by decide) (by decide) (by decide)
  exact h

/-- Claim C6 (counterexample): `getNewChapterIndices` records
`"CHAPTER 1. hello"` — a line with no trailing period, which the claim says
must be treated as ordinary paragraph text — as a chapter start. -/
theorem c6_chapter_index_cex :
    getNewChapterIndices ["CHAPTER 1. hello"] = [0] ∧
      specChapterHeadingExact "CHAPTER 1. hello" = false := by decide

/-- Claim C6 (amended): `getNewChapterIndices` records an index if and only
if the line *starts with* `CHAPTER <digits>. ` (capital `CHAPTER`, one
space, a nonempty digit run, a period and a space); nothing about the rest
of the line — in particular no trailing period — is required. -/
theorem c6_chapter_index_amended (lines : List String) (i : Nat) :
    i ∈ getNewChapterIndices lines ↔
      i < lines.length ∧ ∃ ds rest, ds ≠ [] ∧ (∀ c ∈ ds, c.isDigit = true) ∧
        (lines.getD i "").data = "CHAPTER ".data ++ ds ++ '.' :: ' ' :: rest
    := by
  unfold getNewChapterIndices
  rw [List.mem_filter, List.mem_range]
  rw [chapterHeadMatch_isSome_iff]

/-- Claim C2 (counterexample): two paragraphs of one line each (every line
flagged both first and last of its paragraph).  The second paragraph's sole
line `"gamma"` is a one-word last line, so `handleOrphans` pulls `"beta"`
out of the *previous paragraph's* line even though both paragraphs have only
one line — the claim says the correction must never touch them. -/
theorem c2_orphan_guard_cex :
    (createLines [["alpha", "beta"], ["gamma"]] widthLenZ 14 30).lines
        = ["alpha", "beta gamma"] ∧
      (createLines [["alpha", "beta"], ["gamma"]] widthLenZ 14 30).isFirstLine
        = [true, true] ∧
      (createLines [["alpha", "beta"], ["gamma"]] widthLenZ 14 30).isLastLine
        = [true, true] ∧
      handleOrphans ["alpha beta", "gamma"] [true, true]
        = ["alpha", "beta gamma"] ∧
      ["alpha", "beta gamma"] ≠ ["alpha beta", "gamma"] := by decide

/-- Claim C2 (amended): the orphan correction at index `i ≥ 1` is guarded
only by `isLastLine i` and the current line splitting into exactly one
token; it checks neither that the paragraph has at least two lines nor that
the previous line keeps at least one word.  On two adjacent lines both
flagged last-of-paragraph (two single-line paragraphs) it still moves the
previous line's last word. -/
theorem c2_orphan_move_amended (s t w : String)
    (ht : (wordsOf t).length = 1)
    (hw : (wordsOf s).getLast? = some w) (hw2 : w ≠ "") :
    handleOrphans [s, t] [true, true] =
      [joinSp (wordsOf s).dropLast, w ++ " " ++ t] := by
  unfold handleOrphans
  rw [if_neg (by simp)]
  show handleOrphansGo [true, true] 1 1 [s, t] = _
  unfold handleOrphansGo
  rw [if_pos (by exact ⟨rfl, ht⟩)]
  simp only [show (1 : ℕ) - 1 = 0 from rfl, List.getD_cons_zero,
    List.getD_cons_succ]
  rw [hw]
  dsimp only
  rw [if_neg hw2]
  rfl

/-- Witness for C2's amended theorem at a concrete pair of lines. -/
theorem c2_orphan_move_amended_witness :
    handleOrphans ["alpha beta", "zz"] [true, true] = ["alpha", "beta zz"]
    := by
  have h := c2_orphan_move_amended "alpha beta" "zz" "beta" (by decide)
    (by decide) (by decide)
  rw [h]
  decide

/-- Claim C4 (counterexample): the blank paragraph between
`"hello there"` and `"big world"` produces *no* line at all — the output
stream has two lines and contains no empty marker, where the claim demands a
zero-width empty-text marker occupying its own position. -/
theorem c4_blank_line_dropped_cex :
    (createLines [["hello", "there"], [""], ["big", "world"]]
        widthLenZ 14 100).lines = ["hello there", "big world"] ∧
      "" ∉ (createLines [["hello", "there"], [""], ["big", "world"]]
        widthLenZ 14 100).lines ∧
      (createLines [["hello", "there"], [""], ["big", "world"]]
        widthLenZ 14 100).lines.length = 2 := by decide

theorem wrapParagraph_blank {α : Type} [LinearOrderedRing α]
    (widthOf : String → α → α) (fontSize textMaxWidth : α) (acc : WrapAcc)
    (h : widthOf "" fontSize ≤ textMaxWidth - 18) :
    wrapParagraph widthOf fontSize textMaxWidth [""] acc = acc := by
  have hw : wrapWords widthOf fontSize textMaxWidth [""] acc "" true
      = (acc, "", true) := by
    unfold wrapWords addWordToLine
    rw [if_pos rfl]
    dsimp only
    rw [if_pos rfl, show ("" ++ "" : String) = "" from rfl, if_pos h]
    rfl
  unfold wrapParagraph
  rw [hw]
  dsimp only
  rw [if_neg (by decide)]

/-- Claim C4 (amended): a blank line of the input (a paragraph whose word
array is `[""]`, as produced by splitting the empty paragraph on
whitespace) contributes *zero* lines to `createLines`' output: the empty
buffer is never flushed because its trimmed length is 0, so no paragraph
break marker exists in the line stream, and inserting or removing the blank
paragraph leaves the whole result unchanged (whenever the empty string's
width fits the usable first-line width, as any real metric does). -/
theorem c4_blank_paragraph_amended {α : Type} [LinearOrderedRing α]
    (widthOf : String → α → α) (fontSize textMaxWidth : α)
    (ps1 ps2 : List (List String))
    (h : widthOf "" fontSize ≤ textMaxWidth - 18) :
    createLines (ps1 ++ [""] :: ps2) widthOf fontSize textMaxWidth =
      createLines (ps1 ++ ps2) widthOf fontSize textMaxWidth := by
  unfold createLines
  rw [List.foldl_append, List.foldl_append, List.foldl_cons,
    wrapParagraph_blank widthOf fontSize textMaxWidth _ h]

/-- Witness for C4's amended theorem at a concrete input. -/
theorem c4_blank_paragraph_amended_witness :
    (widthLenZ "" 14 ≤ 100 - 18) ∧
      createLines ([["hello", "there"]] ++ [""] :: [["big", "world"]])
          widthLenZ 14 100 =
        createLines ([["hello", "there"]] ++ [["big", "world"]])
          widthLenZ 14 100 :=
  ⟨by decide, c4_blank_paragraph_amended widthLenZ 14 100
    [["hello", "there"]] [["big", "world"]] (by decide)⟩

/-- Claim C7 (code bug): after orphan handling the first paragraph consists
of the two lines `"aa"` and `"bb"` (index 1 is flagged last-of-paragraph),
and its final line `"bb"` holds exactly one word: the first pass moved
`"bb"` down to fix the orphan `"c"`, and the pass for the following
one-line paragraph `"d"` stole `"c"` back, re-orphaning the line.  The
invariant claimed by the spec — and by the function's own documentation —
fails. -/
theorem c7_orphan_invariant_bug :
    (createLines [["aa", "bb", "c"], ["d"]] widthLenZ 14 24).lines
        = ["aa", "bb", "c d"] ∧
      (createLines [["aa", "bb", "c"], ["d"]] widthLenZ 14 24).isLastLine
        = [false, true, true] ∧
      (createLines [["aa", "bb", "c"], ["d"]] widthLenZ 14 24).isFirstLine
        = [true, false, true] ∧
      (wordsOf "bb").length = 1 := by decide

theorem justifyWords_extent (W : String → ℚ → ℚ) (f sp a y : ℚ) :
    ∀ (ws : List String) (x : ℚ), ws ≠ [] →
    ∃ d, (justifyWords W f sp a y ws x).getLast? = some d ∧
      d.x + W d.text f =
        x + (ws.map (fun w => W w f)).sum +
          ((ws.length - 1 : ℕ) : ℚ) * (sp + a) := by
  intro ws
  induction ws with
  | nil => exact fun x h => absurd rfl h
  | cons w tail ih =>
    intro x _
    cases tail with
    | nil =>
      refine ⟨⟨w, x, y, f⟩, rfl, ?_⟩
      simp
    | cons w2 t =>
      obtain ⟨d, hd, hx⟩ := ih (x + W w f + sp + a) (by simp)
      refine ⟨d, ?_, ?_⟩
      · have hrw : justifyWords W f sp a y (w :: w2 :: t) x
            = ⟨w, x, y, f⟩ :: ⟨w2, x + W w f + sp + a, y, f⟩ ::
              justifyWords W f sp a y t
                (x + W w f + sp + a + W w2 f + sp + a) := rfl
        rw [hrw, List.getLast?_cons_cons]
        exact hd
      · rw [hx]
        have hlen : (((w :: w2 :: t).length - 1 : ℕ) : ℚ)
            = (((w2 :: t).length - 1 : ℕ) : ℚ) + 1 := by
          simp
        rw [hlen]
        simp only [List.map_cons, List.sum_cons]
        ring

/-- Claim C9 (counterexample): a chapter-title line that is not a
paragraph-final line is justified with its words measured and drawn at the
chapter-title size (here 18) while the line width and space width are
measured at the body size (14).  With the additive width function
`widthByLenSize` the drawn words of `"a b"` end at x = 108, not at the
available width 100, although the width function satisfies the claim's
additivity assumption at every size. -/
theorem c9_width_invariant_cex :
    drawJustifiedLine "a b" 0 0 14 18 widthByLenSize 100 false false true
        = [⟨"a", 0, 0, 18⟩, ⟨"b", 90, 0, 18⟩] ∧
      widthByLenSize "a b" 14 = widthByLenSize "a" 14 + widthByLenSize "b" 14
        + ((2 - 1 : ℕ) : ℚ) * widthByLenSize " " 14 ∧
      (90 : ℚ) + widthByLenSize "b" 18 ≠ 0 + 100 := by
  refine ⟨?_,
    by norm_num [widthByLenSize, show ("a b" : String).length = 3 from rfl,
      show ("a" : String).length = 1 from rfl,
      show ("b" : String).length = 1 from rfl,
      show (" " : String).length = 1 from rfl],
    by norm_num [widthByLenSize, show ("b" : String).length = 1 from rfl]⟩
  norm_num [drawJustifiedLine, justifyWords, widthByLenSize,
    show wordsOf "a b" = ["a", "b"] from by decide,
    show ("a b" : String).length = 3 from rfl,
    show ("a" : String).length = 1 from rfl,
    show ("b" : String).length = 1 from rfl,
    show (" " : String).length = 1 from rfl]

/-- Claim C9 (amended): for lines that are not chapter titles the claim
holds.  (1) A paragraph's last line is a single left-aligned run at the
indented or plain margin; (2) a non-final single-word line is a single draw
at its natural position with no distributed space; (3) a non-final line
with at least two words whose measured width is additive (line width =
word widths + one space width per gap, all at the body size) is justified
so that the last drawn word ends exactly at x-origin + available width
(`textMaxWidth`, minus the 18-unit indent on a paragraph's indented first
line).  For chapter-title lines drawn non-final the word widths are taken
at the chapter-title size while line and space widths use the body size,
so the equality fails (see the counterexample). -/
theorem c9_width_invariant_amended (widthOf : String → ℚ → ℚ)
    (line : String) (margin yPos fontSize chapterTitleFontSize
    textMaxWidth : ℚ) (isFirst : Bool) :
    (drawJustifiedLine line margin yPos fontSize chapterTitleFontSize widthOf
        textMaxWidth true isFirst false
      = [⟨line, (if isFirst = true then margin + 18 else margin), yPos,
          fontSize⟩])
  ∧ (∀ w, wordsOf line = [w] →
      drawJustifiedLine line margin yPos fontSize chapterTitleFontSize widthOf
          textMaxWidth false isFirst false
        = [⟨w, (if isFirst = true then margin + 18 else margin), yPos,
            fontSize⟩])
  ∧ (2 ≤ (wordsOf line).length →
      widthOf line fontSize
          = ((wordsOf line).map (fun w => widthOf w fontSize)).sum
            + (((wordsOf line).length - 1 : ℕ) : ℚ) * widthOf " " fontSize →
      ∃ d, (drawJustifiedLine line margin yPos fontSize chapterTitleFontSize
            widthOf textMaxWidth false isFirst false).getLast? = some d ∧
        d.x + widthOf d.text fontSize =
          (if isFirst = true then margin + 18 else margin) +
            (if isFirst = true then textMaxWidth - 18 else textMaxWidth)) := by
  refine ⟨?_, ?_, ?_⟩
  · by_cases hf : isFirst = true <;> simp [drawJustifiedLine, hf]
  · intro w hw
    by_cases hf : isFirst = true <;>
      simp [drawJustifiedLine, hw, justifyWords, hf]
  · intro h2 hAdd
    have hne : wordsOf line ≠ [] := by
      intro hnil
      rw [hnil] at h2
      simp at h2
    have hn1 : ((((wordsOf line).length - 1 : ℕ)) : ℚ) ≠ 0 := by
      have h1 : 1 ≤ (wordsOf line).length - 1 := by omega
      positivity
    unfold drawJustifiedLine
    rw [if_neg (by simp)]
    dsimp only
    rw [if_pos (show 0 < (wordsOf line).length - 1 by omega)]
    have hcf : (if (false : Bool) = true then chapterTitleFontSize
        else fontSize) = fontSize := by simp
    set xPos := if isFirst = true ∧ (false : Bool) = false
      then margin + 18 else margin with hxp
    set availableWidth := if isFirst = true ∧ (false : Bool) = false
      then textMaxWidth - 18 else textMaxWidth with hav
    obtain ⟨d, hd, hx⟩ := justifyWords_extent widthOf
      (if (false : Bool) = true then chapterTitleFontSize else fontSize)
      (widthOf " " fontSize)
      ((availableWidth - widthOf line fontSize) /
        (((wordsOf line).length - 1 : ℕ) : ℚ))
      yPos (wordsOf line) xPos hne
    refine ⟨d, hd, ?_⟩
    rw [hcf] at hx
    rw [hx, hAdd]
    rw [mul_add, mul_div_cancel₀ _ hn1]
    have hxp2 : xPos = if isFirst = true then margin + 18 else margin := by
      by_cases hf : isFirst = true <;> simp [hxp, hf]
    have hav2 : availableWidth
        = if isFirst = true then textMaxWidth - 18 else textMaxWidth := by
      by_cases hf : isFirst = true <;> simp [hav, hf]
    rw [hxp2, hav2]
    ring

/-- Witness for C9's amended theorem, part 3, at a concrete two-word body
line. -/
theorem c9_width_invariant_amended_witness :
    (2 ≤ (wordsOf "ab cd").length) ∧
      (widthByLenSize "ab cd" 14
        = ((wordsOf "ab cd").map (fun w => widthByLenSize w 14)).sum
          + (((wordsOf "ab cd").length - 1 : ℕ) : ℚ) * widthByLenSize " " 14) ∧
      ∃ d, (drawJustifiedLine "ab cd" 0 0 14 18 widthByLenSize 100
          false false false).getLast? = some d ∧
        d.x + widthByLenSize d.text 14 = 0 + 100 := by
  have hAdd : widthByLenSize "ab cd" 14
      = ((wordsOf "ab cd").map (fun w => widthByLenSize w 14)).sum
        + (((wordsOf "ab cd").length - 1 : ℕ) : ℚ) * widthByLenSize " " 14 := by
    norm_num [widthByLenSize, show wordsOf "ab cd" = ["ab", "cd"] from by decide,
      show ("ab cd" : String).length = 5 from rfl,
      show ("ab" : String).length = 2 from rfl,
      show ("cd" : String).length = 2 from rfl,
      show (" " : String).length = 1 from rfl]
  refine ⟨by decide, hAdd, ?_⟩
  have h := (c9_width_invariant_amended widthByLenSize "ab cd" 0 0 14 18 100
    false).2.2 (by decide) hAdd
  simpa using h

theorem breakPhase_events {α : Type} [LinearOrderedRing α] (p : DrawParams α)
    (i : Nat) (line : String) (s : DState α) :
    (breakPhase p i line s).events = s.events := by
  unfold breakPhase startNewPage
  dsimp only
  split_ifs <;> rfl

theorem breakPhase_page_ge {α : Type} [LinearOrderedRing α]
    (p : DrawParams α) (i : Nat) (line : String) (s : DState α) :
    s.page ≤ (breakPhase p i line s).page := by
  unfold breakPhase startNewPage
  dsimp only
  split_ifs <;> simp <;> omega

theorem breakPhase_chapter {α : Type} [LinearOrderedRing α]
    (p : DrawParams α) (i : Nat) (line : String) (s : DState α)
    (hi : p.newChapterIndices.contains i = true) :
    (breakPhase p i line s).yPos = p.pageHeight - p.margin ∧
      s.page + 1 ≤ (breakPhase p i line s).page := by
  unfold breakPhase startNewPage
  dsimp only
  rw [if_pos (Or.inr hi)]
  split_ifs <;> constructor <;> simp

theorem placePhase_events_ne {α : Type} [LinearOrderedRing α]
    (p : DrawParams α) (i : Nat) (line : String) (s : DState α)
    (h : line ≠ "") :
    (placePhase p i line s).events = s.events ++
      [⟨s.page, i, s.yPos, line, p.isLastLine.getD i false,
        p.isFirstLine.getD i false,
        p.newChapterIndices.contains i && chapterTitleTest (trimStr line)⟩]
    := by
  unfold placePhase
  rw [if_neg h]
  dsimp only
  split_ifs <;> rfl

theorem placePhase_events_empty {α : Type} [LinearOrderedRing α]
    (p : DrawParams α) (i : Nat) (s : DState α) :
    (placePhase p i "" s).events = s.events := by
  unfold placePhase
  rw [if_pos rfl]
  dsimp only
  split_ifs <;> rfl

theorem placePhase_page {α : Type} [LinearOrderedRing α] (p : DrawParams α)
    (i : Nat) (line : String) (s : DState α) :
    (placePhase p i line s).page = s.page := by
  unfold placePhase
  dsimp only
  split_ifs <;> rfl

theorem drawStep_events_ne {α : Type} [LinearOrderedRing α]
    (p : DrawParams α) (i : Nat) (line : String) (s : DState α)
    (h : line ≠ "") :
    (drawStep p i line s).events = s.events ++
      [⟨(breakPhase p i line s).page, i, (breakPhase p i line s).yPos, line,
        p.isLastLine.getD i false, p.isFirstLine.getD i false,
        p.newChapterIndices.contains i && chapterTitleTest (trimStr line)⟩]
    := by
  unfold drawStep
  rw [placePhase_events_ne p i line _ h, breakPhase_events]

theorem drawStep_page {α : Type} [LinearOrderedRing α] (p : DrawParams α)
    (i : Nat) (line : String) (s : DState α) :
    (drawStep p i line s).page = (breakPhase p i line s).page := by
  unfold drawStep
  rw [placePhase_page]

theorem drawStep_page_ge {α : Type} [LinearOrderedRing α] (p : DrawParams α)
    (i : Nat) (line : String) (s : DState α) :
    s.page ≤ (drawStep p i line s).page := by
  rw [drawStep_page]
  exact breakPhase_page_ge p i line s

theorem drawStep_events_ext {α : Type} [LinearOrderedRing α]
    (p : DrawParams α) (i : Nat) (line : String) (s : DState α) :
    ∃ t, (drawStep p i line s).events = s.events ++ t ∧
      ∀ e ∈ t, e.page = (drawStep p i line s).page := by
  by_cases h : line = ""
  · subst h
    refine ⟨[], ?_, by simp⟩
    rw [List.append_nil]
    unfold drawStep
    rw [placePhase_events_empty, breakPhase_events]
  · refine ⟨_, drawStep_events_ne p i line s h, ?_⟩
    intro e he
    simp only [List.mem_singleton] at he
    subst he
    rw [drawStep_page]

theorem drawStep_pagesBounded {α : Type} [LinearOrderedRing α]
    (p : DrawParams α) (i : Nat) (line : String) (s : DState α)
    (hs : pagesBounded s) : pagesBounded (drawStep p i line s) := by
  obtain ⟨t, ht, hp⟩ := drawStep_events_ext p i line s
  intro e he
  rw [ht] at he
  rcases List.mem_append.mp he with h1 | h2
  · exact le_trans (hs e h1) (drawStep_page_ge p i line s)
  · rw [hp e h2]

theorem drawLinesGo_page_ge {α : Type} [LinearOrderedRing α]
    (p : DrawParams α) :
    ∀ (fuel j : Nat) (s : DState α), s.page ≤ (drawLinesGo p fuel j s).page
  | 0, _, _ => le_refl _
  | fuel + 1, j, s =>
    le_trans (drawStep_page_ge p j (p.lines.getD j "") s)
      (drawLinesGo_page_ge p fuel (j + 1) _)

theorem drawLinesGo_events_ext {α : Type} [LinearOrderedRing α]
    (p : DrawParams α) :
    ∀ (fuel j : Nat) (s : DState α),
      ∃ t, (drawLinesGo p fuel j s).events = s.events ++ t ∧
        ∀ e ∈ t, s.page ≤ e.page := by
  intro fuel
  induction fuel with
  | zero => exact fun j s => ⟨[], by simp [drawLinesGo]⟩
  | succ fuel ih =>
    intro j s
    obtain ⟨t1, ht1, hp1⟩ := drawStep_events_ext p j (p.lines.getD j "") s
    obtain ⟨t2, ht2, hp2⟩ := ih (j + 1) (drawStep p j (p.lines.getD j "") s)
    refine ⟨t1 ++ t2, ?_, ?_⟩
    · show (drawLinesGo p fuel (j + 1)
        (drawStep p j (p.lines.getD j "") s)).events = _
      rw [ht2, ht1, List.append_assoc]
    · intro e he
      rcases List.mem_append.mp he with h1 | h2
      · rw [hp1 e h1]
        exact drawStep_page_ge p j _ s
      · exact le_trans (drawStep_page_ge p j _ s) (hp2 e h2)

theorem drawLinesGo_pagesBounded {α : Type} [LinearOrderedRing α]
    (p : DrawParams α) :
    ∀ (fuel j : Nat) (s : DState α), pagesBounded s →
      pagesBounded (drawLinesGo p fuel j s) := by
  intro fuel
  induction fuel with
  | zero => exact fun j s hs => hs
  | succ fuel ih =>
    intro j s hs
    exact ih (j + 1) _ (drawStep_pagesBounded p j _ s hs)

theorem drawLinesGo_chapter_first {α : Type} [LinearOrderedRing α]
    (p : DrawParams α) (i : Nat)
    (hc : p.newChapterIndices.contains i = true)
    (hne : p.lines.getD i "" ≠ "") :
    ∀ (fuel j : Nat) (s : DState α), pagesBounded s → j ≤ i → i < j + fuel →
      ∃ pre e post, (drawLinesGo p fuel j s).events = pre ++ e :: post ∧
        e.lineIndex = i ∧ e.y = p.pageHeight - p.margin ∧
        ∀ e2 ∈ pre, e2.page < e.page := by
  intro fuel
  induction fuel with
  | zero => omega
  | succ fuel ih =>
    intro j s hs hij hlt
    by_cases hj : j = i
    · subst hj
      have hch := breakPhase_chapter p j (p.lines.getD j "") s hc
      have hev := drawStep_events_ne p j (p.lines.getD j "") s hne
      obtain ⟨t, ht, _⟩ := drawLinesGo_events_ext p fuel (j + 1)
        (drawStep p j (p.lines.getD j "") s)
      refine ⟨s.events,
        ⟨(breakPhase p j (p.lines.getD j "") s).page, j,
          (breakPhase p j (p.lines.getD j "") s).yPos, p.lines.getD j "",
          p.isLastLine.getD j false, p.isFirstLine.getD j false,
          p.newChapterIndices.contains j &&
            chapterTitleTest (trimStr (p.lines.getD j ""))⟩, t, ?_, rfl,
        hch.1, ?_⟩
      · show (drawLinesGo p fuel (j + 1)
          (drawStep p j (p.lines.getD j "") s)).events = _
        rw [ht, hev, List.append_assoc]
        rfl
      · intro e2 h2
        have h3 := hs e2 h2
        have h4 := hch.2
        show e2.page < (breakPhase p j (p.lines.getD j "") s).page
        omega
    · obtain ⟨pre, e, post, hgo, hli, hy, hpre⟩ := ih (j + 1)
        (drawStep p j (p.lines.getD j "") s)
        (drawStep_pagesBounded p j _ s hs) (by omega) (by omega)
      exact ⟨pre, e, post, hgo, hli, hy, hpre⟩

theorem getNewChapterIndices_getD_ne (lines : List String) (i : Nat)
    (hi : i ∈ getNewChapterIndices lines) : lines.getD i "" ≠ "" := by
  unfold getNewChapterIndices at hi
  rw [List.mem_filter] at hi
  have h2 := hi.2
  rw [Option.isSome_iff_exists] at h2
  obtain ⟨r, hr⟩ := h2
  have := chapterHeadMatch_isSome_iff (lines.getD i "").data
  rw [hr] at this
  obtain ⟨ds, rest, _, _, hdata⟩ := this.mp rfl
  intro h0
  rw [h0] at hdata
  simp at hdata

theorem getNewChapterIndices_lt (lines : List String) (i : Nat)
    (hi : i ∈ getNewChapterIndices lines) : i < lines.length := by
  unfold getNewChapterIndices at hi
  rw [List.mem_filter, List.mem_range] at hi
  exact hi.1

theorem initDState_pagesBounded {α : Type} [LinearOrderedRing α]
    (p : DrawParams α) : pagesBounded (initDState p) := by
  intro e he
  simp [initDState] at he

/-- Claim C8 (confirmed): with the chapter indices computed by
`getNewChapterIndices` (as in src/index.ts), every line at a recorded
chapter-start index is placed at the very top (`pageHeight - margin`) of a
page that holds no earlier-placed content: every event placed before it
lies on a strictly smaller page. -/
theorem c8_chapter_first_on_page {α : Type} [LinearOrderedRing α]
    (margin pageHeight lineHeight paragraphBreakHeight : α)
    (lines : List String) (isLast isFirst : List Bool) (i : Nat)
    (hi : i ∈ getNewChapterIndices lines) :
    ∃ pre e post,
      (drawTextLinesRun (⟨margin, pageHeight, lineHeight,
          paragraphBreakHeight, lines, getNewChapterIndices lines, isLast,
          isFirst⟩ : DrawParams α)).events = pre ++ e :: post ∧
        e.lineIndex = i ∧ e.y = pageHeight - margin ∧
        ∀ e2 ∈ pre, e2.page < e.page := by
  have hc : (getNewChapterIndices lines).contains i = true :=
    List.elem_eq_true_of_mem hi
  have hne := getNewChapterIndices_getD_ne lines i hi
  have hlen := getNewChapterIndices_lt lines i hi
  exact drawLinesGo_chapter_first
    (⟨margin, pageHeight, lineHeight, paragraphBreakHeight, lines,
      getNewChapterIndices lines, isLast, isFirst⟩ : DrawParams α) i hc hne
    lines.length 0 _ (initDState_pagesBounded _) (Nat.zero_le i) (by omega)

/-- Witness for C8 at a concrete two-line document whose first line is a
chapter heading. -/
theorem c8_chapter_first_on_page_witness :
    (0 ∈ getNewChapterIndices ["CHAPTER 1. A.", "b c"]) ∧
      ∃ pre e post,
        (drawTextLinesRun (⟨100, 800, 20, 10, ["CHAPTER 1. A.", "b c"],
            getNewChapterIndices ["CHAPTER 1. A.", "b c"], [true, true],
            [true, true]⟩ : DrawParams ℤ)).events = pre ++ e :: post ∧
          e.lineIndex = 0 ∧ e.y = (800 : ℤ) - 100 ∧
          ∀ e2 ∈ pre, e2.page < e.page :=
  ⟨by decide, c8_chapter_first_on_page 100 800 20 10
    ["CHAPTER 1. A.", "b c"] [true, true] [true, true] 0 (by decide)⟩

theorem addPageNumbersStamps_head (m : Nat) (h : 0 < m) :
    (addPageNumbersStamps m).getD 0 0 = 1 := by
  cases m with
  | zero => omega
  | succ k => simp [addPageNumbersStamps, List.range_succ_eq_map]

/-- Claim C10 (confirmed): when the document's very first line is a recorded
chapter start, the page the caller created before layout (page 0) receives
no content at all — every placed line lands on page 1 or later, at least one
additional page exists, and the page-number overlay stamps the untouched
leading page with the number 1, shifting all content pages' numbers by the
blank leading page. -/
theorem c10_blank_first_page {α : Type} [LinearOrderedRing α]
    (margin pageHeight lineHeight paragraphBreakHeight : α)
    (lines : List String) (isLast isFirst : List Bool)
    (h0 : 0 ∈ getNewChapterIndices lines) :
    (∀ e ∈ (drawTextLinesRun (⟨margin, pageHeight, lineHeight,
        paragraphBreakHeight, lines, getNewChapterIndices lines, isLast,
        isFirst⟩ : DrawParams α)).events, 1 ≤ e.page) ∧
      1 ≤ (drawTextLinesRun (⟨margin, pageHeight, lineHeight,
        paragraphBreakHeight, lines, getNewChapterIndices lines, isLast,
        isFirst⟩ : DrawParams α)).page ∧
      (addPageNumbersStamps ((drawTextLinesRun (⟨margin, pageHeight,
        lineHeight, paragraphBreakHeight, lines, getNewChapterIndices lines,
        isLast, isFirst⟩ : DrawParams α)).page + 1)).getD 0 0 = 1 := by
  set p : DrawParams α := ⟨margin, pageHeight, lineHeight,
    paragraphBreakHeight, lines, getNewChapterIndices lines, isLast,
    isFirst⟩ with hp
  have hc : (getNewChapterIndices lines).contains 0 = true :=
    List.elem_eq_true_of_mem h0
  have hne := getNewChapterIndices_getD_ne lines 0 h0
  have hlen := getNewChapterIndices_lt lines 0 h0
  obtain ⟨n, hn⟩ : ∃ n, lines.length = n + 1 :=
    ⟨lines.length - 1, by omega⟩
  have hrun : drawTextLinesRun p = drawLinesGo p n 1
      (drawStep p 0 (p.lines.getD 0 "") (initDState p)) := by
    unfold drawTextLinesRun
    show drawLinesGo p lines.length 0 _ = _
    rw [hn]
    rfl
  have hch := breakPhase_chapter p 0 (p.lines.getD 0 "") (initDState p) hc
  have hsp : 1 ≤ (drawStep p 0 (p.lines.getD 0 "") (initDState p)).page := by
    rw [drawStep_page]
    have h2 := hch.2
    have h3 : (initDState p).page = 0 := rfl
    omega
  have hev := drawStep_events_ne p 0 (p.lines.getD 0 "") (initDState p) hne
  obtain ⟨t, ht, hpt⟩ := drawLinesGo_events_ext p n 1
    (drawStep p 0 (p.lines.getD 0 "") (initDState p))
  have hfinal : 1 ≤ (drawTextLinesRun p).page := by
    rw [hrun]
    exact le_trans hsp (drawLinesGo_page_ge p n 1 _)
  refine ⟨?_, hfinal, addPageNumbersStamps_head _ (by omega)⟩
  intro e he
  rw [hrun, ht, hev] at he
  have hin : (initDState p).events = [] := rfl
  rw [hin, List.nil_append] at he
  rcases List.mem_append.mp he with h1 | h2
  · simp only [List.mem_singleton] at h1
    subst h1
    show 1 ≤ (breakPhase p 0 (p.lines.getD 0 "") (initDState p)).page
    have h2 := hch.2
    have h3 : (initDState p).page = 0 := rfl
    omega
  · have h4 := hpt e h2
    omega

/-- Witness for C10 at a concrete document starting with a chapter
heading. -/
theorem c10_blank_first_page_witness :
    (0 ∈ getNewChapterIndices ["CHAPTER 1. A.", "b c"]) ∧
      (∀ e ∈ (drawTextLinesRun (⟨100, 800, 20, 10, ["CHAPTER 1. A.", "b c"],
          getNewChapterIndices ["CHAPTER 1. A.", "b c"], [true, true],
          [true, true]⟩ : DrawParams ℤ)).events, 1 ≤ e.page) ∧
      1 ≤ (drawTextLinesRun (⟨100, 800, 20, 10, ["CHAPTER 1. A.", "b c"],
          getNewChapterIndices ["CHAPTER 1. A.", "b c"], [true, true],
          [true, true]⟩ : DrawParams ℤ)).page ∧
      (addPageNumbersStamps ((drawTextLinesRun (⟨100, 800, 20, 10,
          ["CHAPTER 1. A.", "b c"],
          getNewChapterIndices ["CHAPTER 1. A.", "b c"], [true, true],
          [true, true]⟩ : DrawParams ℤ)).page + 1)).getD 0 0 = 1 :=
  ⟨by decide, c10_blank_first_page 100 800 20 10 ["CHAPTER 1. A.", "b c"]
    [true, true] [true, true] (by decide)⟩

/-- Claim C1 (counterexample): a paragraph-closing line ending in `:`
followed by a break marker and a new paragraph.  With lineHeight 20 and
paragraphBreakHeight 10 the gap between the colon line (y = 700) and the
next paragraph (y = 630) is 70 = 20 + 10 + **2·20**: the colon rule charges
one extra line height at the colon line and the blank-line branch charges a
second one, so the extra space is inserted twice, not once as claimed. -/
theorem c1_colon_double_space_cex :
    ((drawTextLinesRun (⟨100, 800, 20, 10, ["intro:", "", "next par"], [],
        [true, false, true], [true, false, true]⟩ : DrawParams ℤ)).events.map
      (fun e => (e.lineIndex, e.page, e.y))) = [(0, 0, 700), (2, 0, 630)] ∧
      (700 - 630 : ℤ) = 20 + 10 + 2 * 20 ∧
      (700 - 630 : ℤ) ≠ 20 + 10 + 20 := by decide

/-- Claim C1 (amended): for every colon-ending paragraph-final line `a` and
every following paragraph `b` (with the standard geometry margin 100, page
height 800, line height 20, paragraph break 10), the engine draws `b`
exactly 2 line heights + paragraph break + 1 line height below `a`: the
colon rule consumes one extra line height when `a` is drawn, and the
blank-marker branch consumes a second extra line height because a paragraph
has closed while the colon is pending. -/
theorem c1_colon_spacing_amended (a b : String) (ha : a ≠ "") (hb : b ≠ "")
    (hc : endsColon a = true) :
    ((drawTextLinesRun (⟨100, 800, 20, 10, [a, "", b], [],
        [true, false, true], [true, false, true]⟩ : DrawParams ℤ)).events.map
      (fun e => (e.lineIndex, e.page, e.y)))
      = [(0, 0, 700), (2, 0, 700 - (2 * 20 + 10 + 20))] := by
  have hca : calculateRemainingLinesInParagraph
      (⟨100, 800, 20, 10, [a, "", b], [], [true, false, true],
        [true, false, true]⟩ : DrawParams ℤ) 0 = 1 := rfl
  have hcb : calculateRemainingLinesInParagraph
      (⟨100, 800, 20, 10, [a, "", b], [], [true, false, true],
        [true, false, true]⟩ : DrawParams ℤ) 2 = 1 := rfl
  norm_num [drawTextLinesRun, drawLinesGo, drawStep, breakPhase, placePhase,
    startNewPage, initDState, hca, hcb, ha, hb, hc]
  split_ifs <;> norm_num

/-- Witness for C1's amended theorem at concrete line texts. -/
theorem c1_colon_spacing_amended_witness :
    ("intro:" ≠ "") ∧ endsColon "intro:" = true ∧
      ((drawTextLinesRun (⟨100, 800, 20, 10, ["intro:", "", "next"], [],
          [true, false, true], [true, false, true]⟩ : DrawParams ℤ)).events.map
        (fun e => (e.lineIndex, e.page, e.y)))
        = [(0, 0, 700), (2, 0, 700 - (2 * 20 + 10 + 20))] :=
  ⟨by decide, by decide,
    c1_colon_spacing_amended "intro:" "next" (by decide) (by decide)
      (by decide)⟩

/-- Claim C3 (counterexample): a single five-line paragraph (only index 4 is
flagged last-of-paragraph, only index 0 first-of-paragraph) on a page with
4.5 line heights of room.  After two lines are placed, three lines remain
and the remaining space is 2.5 line heights, so the orphan-avoidance test
`remainingLinesInParagraph ≤ 3 ∧ remainingSpace < remaining · lineHeight`
fires on line 2 — which is *not* a paragraph's first line — and the
paragraph is split across pages 0 and 1. -/
theorem c3_orphan_rule_mid_paragraph_cex :
    ((drawTextLinesRun (⟨100, 290, 20, 10, ["l1", "l2", "l3", "l4", "l5"],
        [], [false, false, false, false, true],
        [true, false, false, false, false]⟩ : DrawParams ℤ)).events.map
      (fun e => (e.lineIndex, e.page)))
        = [(0, 0), (1, 0), (2, 1), (3, 1), (4, 1)] ∧
      ([true, false, false, false, false] : List Bool).getD 2 false = false
    := by decide

/-- Claim C3 (amended): the orphan-avoidance-at-top test runs on *every*
line, using the running countdown `remainingLinesInParagraph`: whenever at
most 3 lines of the current paragraph remain undrawn and the remaining
space is under their total height, a new page is started before placing the
line — also in the middle of a partially placed paragraph (the hypothesis
`isFirstLine.getD i false = false` below).  The rule keeps a paragraph's
last ≤ 3 lines together rather than only protecting whole short
paragraphs. -/
theorem c3_orphan_rule_amended {α : Type} [LinearOrderedRing α]
    (p : DrawParams α) (i : Nat) (line : String) (s : DState α)
    (hch : p.newChapterIndices = [])
    (hfirst : p.isFirstLine.getD i false = false)
    (hline : line ≠ "")
    (h3 : s.remainingLinesInParagraph ≤ 3)
    (hsp : s.remainingSpace < (s.remainingLinesInParagraph : α) * p.lineHeight)
    (hmin : p.lineHeight ≤ (p.pageHeight - p.margin) - p.margin) :
    (drawStep p i line s).events = s.events ++
      [⟨s.page + 1, i, p.pageHeight - p.margin, line,
        p.isLastLine.getD i false, false, false⟩] := by
  have hcont : p.newChapterIndices.contains i = false := by
    rw [hch]
    rfl
  have hbp : breakPhase p i line s = startNewPage p s := by
    unfold breakPhase
    rw [hcont]
    simp only [Bool.false_and, hfirst, Bool.false_eq_true, false_or,
      if_false, false_and, ite_false]
    have horf : (if s.remainingLinesInParagraph ≤ 3 ∧
        s.remainingSpace < (s.remainingLinesInParagraph : α) * p.lineHeight
        then startNewPage p s else s) = startNewPage p s := if_pos ⟨h3, hsp⟩
    rw [horf]
    have hmin2 : ¬((startNewPage p s).remainingSpace < p.lineHeight) := by
      show ¬((p.pageHeight - p.margin) - p.margin < p.lineHeight)
      exact not_lt.mpr hmin
    rw [if_neg hmin2]
  have hev := drawStep_events_ne p i line s hline
  rw [hbp] at hev
  rw [hev, hcont, hfirst]
  rfl

/-- Witness for C3's amended theorem: a mid-paragraph line (not flagged
first-of-paragraph) with 3 remaining lines and too little space forces a
fresh page. -/
theorem c3_orphan_rule_amended_witness :
    (("x" : String) ≠ "") ∧ ((3 : Int) ≤ 3) ∧ ((50 : ℤ) < (3 : Int) * 20) ∧
      (drawStep (⟨100, 800, 20, 10, ["a", "x"], [], [false, true],
          [true, false]⟩ : DrawParams ℤ) 1 "x"
        ⟨0, 150, 50, false, -1, -1, 3, []⟩).events =
      [] ++ [⟨0 + 1, 1, (800 : ℤ) - 100, "x", true, false, false⟩] :=
  ⟨by decide, by decide, by decide,
    c3_orphan_rule_amended (⟨100, 800, 20, 10, ["a", "x"], [], [false, true],
        [true, false]⟩ : DrawParams ℤ) 1 "x"
      ⟨0, 150, 50, false, -1, -1, 3, []⟩ rfl (by decide) (by decide)
      (by decide) (by decide) (by decide)⟩
